import Mathlib

/-!
Verification of the dvm-helper version manager (src/dvm-helper/dvm-helper.go).

The Go program is shallowly embedded below.  Global command-line state and the
external collaborators (filesystem, PATH lookup, GitHub tag list, the probed
binary's `-v` output) are gathered into one explicit `Env` value; every command
is a pure function from `Env` (plus its arguments) to either a new `Env` or a
fatal exit code.  Error messages printed by `die` are elided; only the exit
code taxonomy (127 / 3 / 1) is retained, since that is what the specification
talks about.  The two pattern languages used by the program are modelled on
the fragments the program exercises:

* `filepath.Glob` / `ryanuber/go-glob` patterns are modelled for literal
  characters and the `*` wildcard (the only metacharacter the program itself
  ever inserts); character classes and `?` are outside the modelled fragment.
* `regexp` patterns supplied by the user are modelled for literal characters
  and the `.` wildcard; any other metacharacter (in particular `(`) fails to
  compile, exactly as `regexp.Compile` fails on an unbalanced `(`.
  The two hard-coded regular expressions of the program,
  `^v([1-9]+\.\d+\.\d+)$` and `^Docker version (.*),`, are implemented
  directly as recognizer functions.
-/

namespace Dvm

/-- Exit codes of `die`: `retCodeInvalidArgument = 127`,
`retCodeInvalidOperation = 3`, `retCodeRuntimeError = 1`. -/
inductive ExitCode where
  | invalidArgument
  | invalidOperation
  | runtimeError
  deriving DecidableEq, Repr

/-- Numeric value of each exit code, as in the Go constant block. -/
def ExitCode.toCode : ExitCode → Nat
  | .invalidArgument => 127
  | .invalidOperation => 3
  | .runtimeError => 1

/-- One line written to the console; `current` distinguishes
`writeWarning` from `writeInfo`. -/
inductive ConsoleLine where
  | info (s : String)
  | warning (s : String)
  deriving DecidableEq, Repr

/-! ## String ordering (`sort.Strings`) -/

/-- Insert a string into an already sorted list (lexicographic order,
matching Go's byte-wise `sort.Strings` on the ASCII data the program uses). -/
def insertSorted (s : String) : List String → List String
  | [] => [s]
  | t :: ts => if s ≤ t then s :: t :: ts else t :: insertSorted s ts

/-- `sort.Strings`: sort a list of strings lexicographically. -/
def sortStrings (l : List String) : List String :=
  l.foldr insertSorted []

/-! ## Glob matching

`filepath.Glob(dir/pattern)` is modelled as filtering the existing directory
names with `fpMatchL pattern`, and `glob.Glob` (ryanuber/go-glob) coincides
with the same matcher on the `*`/literal fragment: split the pattern on `*`,
require the first segment as a prefix, locate the middle segments greedily at
their earliest occurrences, and require the last segment as a suffix. -/

/-- Split a pattern on the `*` wildcard (like `strings.Split(pattern, "*")`). -/
def starSplit : List Char → List (List Char)
  | [] => [[]]
  | c :: rest =>
    if c = '*' then [] :: starSplit rest
    else
      match starSplit rest with
      | [] => [[c]]
      | seg :: segs => (c :: seg) :: segs

/-- Split a nonempty list of segments into its middles and its last segment. -/
def splitLast : List (List Char) → List (List Char) × List Char
  | [] => ([], [])
  | [x] => ([], x)
  | x :: xs => let p := splitLast xs; (x :: p.1, p.2)

/-- Earliest occurrence of `seg` inside `s`; returns the remainder after it
(like `strings.Index` followed by slicing). -/
def dropAfterFind (seg : List Char) : List Char → Option (List Char)
  | [] => if seg.isEmpty then some [] else none
  | c :: rest =>
    if seg.isPrefixOf (c :: rest) then some ((c :: rest).drop seg.length)
    else dropAfterFind seg rest

/-- Consume every middle segment in order at its earliest occurrence. -/
def matchMiddles : List (List Char) → List Char → Option (List Char)
  | [], s => some s
  | seg :: segs, s =>
    match dropAfterFind seg s with
    | none => none
    | some r => matchMiddles segs r

/-- Glob matching on character lists (literal characters and `*` only). -/
def fpMatchL (p s : List Char) : Bool :=
  match starSplit p with
  | [] => false
  | [seg] => seg == s
  | first :: rest =>
    if first.isPrefixOf s then
      let s1 := s.drop first.length
      let ml := splitLast rest
      match matchMiddles ml.1 s1 with
      | none => false
      | some r => ml.2.isSuffixOf r
    else false

/-- Glob matching on strings. -/
def globMatch (p s : String) : Bool :=
  fpMatchL p.toList s.toList

/-- A pattern that contains no glob metacharacter; on such patterns the glob
languages reduce to string equality. -/
def plainPattern (s : String) : Bool :=
  s.toList.all fun c => decide (c ≠ '*' ∧ c ≠ '?' ∧ c ≠ '[' ∧ c ≠ '\\')

/-! ## The hard-coded regular expressions -/

/-- Drop a literal character sequence from the front of a list. -/
def dropLiteral : List Char → List Char → Option (List Char)
  | [], s => some s
  | _ :: _, [] => none
  | c :: cs, x :: xs => if c = x then dropLiteral cs xs else none

/-- The parse `regexp.MustCompile("^Docker version (.*),")` applied by
`getDockerVersion` to the raw `docker -v` output: the text must start with
the literal `Docker version `, and the capture extends greedily to the last
comma of the first line (`.` does not match a newline). -/
def parseDockerVersion (raw : String) : Option String :=
  match dropLiteral "Docker version ".toList raw.toList with
  | none => none
  | some rest =>
    let line := rest.takeWhile (· != '\n')
    match line.reverse.dropWhile (· != ',') with
    | [] => none
    | _ :: before => some (String.mk before.reverse)

/-- Digit between `1` and `9` (the character class `[1-9]`). -/
def isDigit19 (c : Char) : Bool :=
  decide ('1' ≤ c ∧ c ≤ '9')

/-- The tag filter `regexp.MustCompile("^v([1-9]+\.\d+\.\d+)$")` of
`getAvailableVersions`: on success returns the captured group. -/
def versionTagMatchL : List Char → Option (List Char)
  | [] => none
  | c :: rest =>
    if c = 'v' then
      let major := rest.takeWhile isDigit19
      if major.isEmpty then none
      else
        match rest.dropWhile isDigit19 with
        | [] => none
        | d :: r2 =>
          if d = '.' then
            let minor := r2.takeWhile Char.isDigit
            if minor.isEmpty then none
            else
              match r2.dropWhile Char.isDigit with
              | [] => none
              | d2 :: r4 =>
                if d2 = '.' then
                  let patch := r4.takeWhile Char.isDigit
                  if patch.isEmpty then none
                  else if (r4.dropWhile Char.isDigit).isEmpty then
                    some (major ++ '.' :: minor ++ '.' :: patch)
                  else none
                else none
          else none
    else none

/-- String form of the tag filter. -/
def versionTagMatch (t : String) : Option String :=
  (versionTagMatchL t.toList).map fun l => String.mk l

/-! ## User-supplied regular expressions (`regexp.Compile(pattern)`)

Modelled on the fragment of Go regex syntax the development exercises:
alphanumeric characters and a few punctuation characters are literals, `.`
is the any-character wildcard, and every other character (notably `(`)
fails to compile, as an unbalanced `(` does in `regexp.Compile`. -/

/-- A compiled regex token. -/
inductive RTok where
  | lit (c : Char)
  | dot
  deriving DecidableEq, Repr

/-- Characters treated as regex literals by the modelled fragment. -/
def regexLiteralChar (c : Char) : Bool :=
  c.isAlphanum || decide (c = '-' ∨ c = '_' ∨ c = ' ' ∨ c = '/' ∨ c = ':' ∨ c = ',')

/-- Compile a pattern into tokens; fails on unmodelled metacharacters. -/
def goRegexCompileL : List Char → Option (List RTok)
  | [] => some []
  | c :: rest =>
    if c = '.' then (goRegexCompileL rest).map (RTok.dot :: ·)
    else if regexLiteralChar c then (goRegexCompileL rest).map (RTok.lit c :: ·)
    else none

/-- Compile a pattern string. -/
def goRegexCompile (p : String) : Option (List RTok) :=
  goRegexCompileL p.toList

/-- Match the token list against the front of the text. -/
def tokensAtFront : List RTok → List Char → Bool
  | [], _ => true
  | _ :: _, [] => false
  | .lit c :: ps, x :: xs => decide (x = c) && tokensAtFront ps xs
  | .dot :: ps, _ :: xs => tokensAtFront ps xs

/-- Unanchored matching (`Regexp.MatchString`): the tokens match at some
position of the text. -/
def tokensSearch (ps : List RTok) : List Char → Bool
  | [] => tokensAtFront ps []
  | c :: rest => tokensAtFront ps (c :: rest) || tokensSearch ps rest

/-! ## Semantic versions (`blang/semver`), plain `X.Y.Z` fragment -/

/-- Strict numeric component: nonempty digits without a leading zero. -/
def parseNatStrict (s : List Char) : Option Nat :=
  if s.isEmpty then none
  else if s.all Char.isDigit then
    match s with
    | '0' :: _ :: _ => none
    | _ => some (s.foldl (fun acc c => acc * 10 + (c.toNat - '0'.toNat)) 0)
  else none

/-- `semver.Make` on plain `MAJOR.MINOR.PATCH` versions (prerelease and build
metadata are outside the modelled fragment and fail to parse). -/
def parseSemver (s : String) : Option (Nat × Nat × Nat) :=
  match s.splitOn "." with
  | [a, b, c] =>
    match parseNatStrict a.toList, parseNatStrict b.toList, parseNatStrict c.toList with
    | some x, some y, some z => some (x, y, z)
    | _, _, _ => none
  | _ => none

/-- `latestVersion.Compare(currentVersion) > 0` on parsed triples. -/
def semverGt (a b : Nat × Nat × Nat) : Bool :=
  decide (b.1 < a.1 ∨ (a.1 = b.1 ∧ (b.2.1 < a.2.1 ∨ (a.2.1 = b.2.1 ∧ b.2.2 < a.2.2))))

/-! ## The program environment

One value gathering the mutable state touched by the program and the
read-only answers of its external collaborators. -/

/-- The state and external inputs of one invocation. -/
structure Env where
  /-- The `--dvm-dir` home directory (assumed free of glob metacharacters). -/
  dvmDir : String
  /-- The entries of the process PATH, in order. -/
  pathEnv : List String
  /-- Names of the directories existing under `<dvmDir>/bin/docker`. -/
  versionDirs : List String
  /-- Whether `<dvmDir>/bin/docker` itself exists (`filepath.Join` drops an
  empty final component, so globbing the empty pattern hits this directory). -/
  hasBinDockerDir : Bool
  /-- Whether the file `<dvmDir>/bin/docker/experimental/docker` exists. -/
  experimentalBinaryExists : Bool
  /-- The alias store: one `(name, contents)` record per file under
  `<dvmDir>/alias`. -/
  aliases : List (String × String)
  /-- `exec.LookPath("docker")` against the current PATH. -/
  dockerLookPath : Option String
  /-- `exec.LookPath("docker")` after stripping the managed PATH entries
  (the body of `getSystemDockerPath`). -/
  systemLookPath : Option String
  /-- Raw output of `exec.Command(path, "-v")` for each binary path. -/
  rawVersionOutput : String → String
  /-- `strings.TrimSpace(os.Getenv("DOCKER_VERSION"))`. -/
  envDockerVersion : String
  /-- The upstream repository's tag names, in response order. -/
  tags : List String
  /-- The build-time `dvmVersion` of the running tool. -/
  dvmVersion : String
  /-- The tag name of the latest release of the tool itself, when the
  release query succeeds. -/
  latestReleaseTag : Option String
  /-- Version of the tool binary on disk (replaced by `upgradeSelf`). -/
  installedToolVersion : String

/-- Platform binary extension; the modelled build is the non-Windows one,
where `binaryFileExt` is empty. -/
def binaryFileExt : String := ""

/-- `getBinaryName`. -/
def getBinaryName : String := "docker" ++ binaryFileExt

/-- `getVersionDir`: `filepath.Join(dvmDir, "bin", "docker", version)`
(an empty version is dropped by `Join`). -/
def getVersionDir (e : Env) (version : String) : String :=
  if version = "" then e.dvmDir ++ "/bin/docker"
  else e.dvmDir ++ "/bin/docker/" ++ version

/-- The path computed by `getExperimentalDockerPath` (the accompanying
`os.Stat` error is tracked by `Env.experimentalBinaryExists`). -/
def experimentalDockerPath (e : Env) : String :=
  getVersionDir e "experimental" ++ "/" ++ getBinaryName

/-- `getDockerVersion`: run the binary and parse its first line. -/
def getDockerVersion (e : Env) (dockerPath : String) : Option String :=
  parseDockerVersion (e.rawVersionOutput dockerPath)

/-- `getSystemDockerVersion`: resolve the system binary, then parse its
version; either failure is propagated. -/
def getSystemDockerVersion (e : Env) : Option String :=
  match e.systemLookPath with
  | none => none
  | some p => getDockerVersion e p

/-- `getExperimentalDockerVersion`: requires the experimental binary to
exist, then parses its version. -/
def getExperimentalDockerVersion (e : Env) : Option String :=
  if e.experimentalBinaryExists then getDockerVersion e (experimentalDockerPath e)
  else none

/-- `getCurrentDockerVersion`: fails only when no `docker` binary resolves;
a version-parse failure is discarded (`current, _ :=`), leaving the empty
string, and the result is relabelled when the resolved path equals the
system-resolved path or the experimental path. -/
def getCurrentDockerVersion (e : Env) : Option String :=
  match e.dockerLookPath with
  | none => none
  | some p =>
    let cur := (getDockerVersion e p).getD ""
    let sysPath := (e.systemLookPath).getD ""
    let cur := if p = sysPath then "system (" ++ cur ++ ")" else cur
    let cur := if p = experimentalDockerPath e then "experimental (" ++ cur ++ ")" else cur
    some cur

/-- The `current` command: `writeWarning("N/A")` on lookup failure,
otherwise `writeInfo` of the reported version. -/
def current (e : Env) : ConsoleLine :=
  match getCurrentDockerVersion e with
  | none => .warning "N/A"
  | some v => .info v

/-! ## PATH activation

`removePath(getCleanDvmPathRegex())` and `prependPath` live in a source file
that is not part of the given sources. -/

/-- Split a path into its segments at `/` separators. -/
def splitSlash : List Char → List (List Char)
  | [] => [[]]
  | c :: rest =>
    if c = '/' then [] :: splitSlash rest
    else
      match splitSlash rest with
      | [] => [[c]]
      | seg :: segs => (c :: seg) :: segs

/-- Modelled from the spec: `getCleanDvmPathRegex`/`removePath` are not in
the given sources; per the PathActivator design, a PATH entry is managed
when its path segments start with the managed bin root's segments. -/
def isDvmVersionPathEntry (dvmDir entry : String) : Bool :=
  List.isPrefixOf (splitSlash dvmDir.toList ++ ["bin".toList, "docker".toList])
    (splitSlash entry.toList)

/-- Modelled from the spec: `removePreviousDvmVersionFromPath` strips every
managed entry from the PATH, preserving the order of the rest. -/
def removePreviousDvmVersionFromPath (e : Env) : Env :=
  { e with pathEnv := e.pathEnv.filter fun p => !isDvmVersionPathEntry e.dvmDir p }

/-- Modelled from the spec: `prependPath` is not in the given sources;
`prependDvmVersionToPath` inserts the version directory at the front. -/
def prependDvmVersionToPath (e : Env) (version : String) : Env :=
  { e with pathEnv := getVersionDir e version :: e.pathEnv }

/-! ## The remote catalog -/

/-- The filtering loop of `getAvailableVersions` over the fetched tags, for
an already compiled pattern: keep tags matching the strict shape whose raw
text also matches the pattern, extract the capture, and sort. -/
def availList (pm : List RTok) (tags : List String) : List String :=
  sortStrings (tags.filterMap fun t =>
    match versionTagMatch t with
    | some v => if tokensSearch pm t.toList then some v else none
    | none => none)

/-- `getAvailableVersions(pattern)` with the tag fetch already succeeded
(a network failure would be a fatal `RuntimeError` before this point);
an invalid pattern dies with `retCodeInvalidOperation`. -/
def getAvailableVersions (tags : List String) (pattern : String) :
    Except ExitCode (List String) :=
  match goRegexCompile pattern with
  | none => .error .invalidOperation
  | some pm => .ok (availList pm tags)

/-- `versionExists`: `"experimental"` short-circuits to true; otherwise the
version itself is used as the filter pattern and tested for membership. -/
def versionExists (tags : List String) (version : String) : Except ExitCode Bool :=
  if version = "experimental" then .ok true
  else
    match getAvailableVersions tags version with
    | .error c => .error c
    | .ok avail => .ok (avail.contains version)

/-! ## Installed versions -/

/-- The `filepath.Glob(getVersionDir(pattern))` step of
`getInstalledVersions`, as base names.  For the empty pattern `Join` yields
`<dvmDir>/bin/docker` itself, whose base name is `docker`. -/
def getInstalledNames (e : Env) (pattern : String) : List String :=
  if pattern = "" then (if e.hasBinDockerDir then ["docker"] else [])
  else e.versionDirs.filter fun n => globMatch pattern n

/-- `getInstalledVersions`: glob the version directories, relabel an
`experimental` entry with its probed version (skipping it when the probe
fails), append a `system` entry when the pattern glob-matches `"system"`
and a system binary resolves, and sort. -/
def getInstalledVersions (e : Env) (pattern : String) : List String :=
  let results := (getInstalledNames e pattern).filterMap fun n =>
    if n = "experimental" then
      (getExperimentalDockerVersion e).map fun ev => "experimental (" ++ ev ++ ")"
    else some n
  let results :=
    if globMatch pattern "system" then
      match getSystemDockerVersion e with
      | some sv => results ++ ["system (" ++ sv ++ ")"]
      | none => results
    else results
  sortStrings results

/-- `isVersionInstalled`: nonemptiness of `getInstalledVersions(version)`. -/
def isVersionInstalled (e : Env) (version : String) : Bool :=
  !(getInstalledVersions e version).isEmpty

/-- The `list` command: append `*` to the pattern and report the matching
installed versions (the current-version arrow marking is presentation
only and not modelled). -/
def list (e : Env) (pattern : String) : List String :=
  getInstalledVersions e (pattern ++ "*")

/-! ## Commands mutating state -/

/-- The `alias` command (named `alias` in the source; that word is a
command keyword in Lean): requires both arguments nonempty and the version
installed, then overwrites the alias record. -/
def aliasCmd (e : Env) (name version : String) : Except ExitCode Env :=
  if name = "" ∨ version = "" then .error .invalidArgument
  else if !isVersionInstalled e version then .error .invalidArgument
  else .ok { e with aliases := (e.aliases.filter fun p => p.1 != name) ++ [(name, version)] }

/-- The `uninstall` command: empty version dies `InvalidArgument`; a version
equal to the reported current version dies `InvalidOperation`; a missing
directory only warns; otherwise the version directory is removed. -/
def uninstall (e : Env) (version : String) : Except ExitCode Env :=
  if version = "" then .error .invalidArgument
  else
    let cur := (getCurrentDockerVersion e).getD ""
    if cur = version then .error .invalidOperation
    else if version ∈ e.versionDirs then
      .ok { e with versionDirs := e.versionDirs.erase version }
    else .ok e

/-! ## install / use

`install` ends by activating via `use`, and `use` installs a missing
version via `ensureVersionIsInstalled`, so the two commands are mutually
recursive.  The recursion is bounded by an explicit fuel; the program
itself terminates because `install` makes the version installed before
calling `use`.  `downloadFileWithChecksum` is an external collaborator
(modelled from the spec: a checksum-verified download creating the version
directory). -/

/-- Selector for the two mutually recursive commands. -/
inductive DvmCmd where
  | installC
  | useC

/-- Fuelled interpreter for `install` and `use`. -/
def dvmRun : Nat → DvmCmd → Env → String → Except ExitCode Env
  | 0, _, _, _ => .error .runtimeError
  | Nat.succ fuel, .installC, e, version =>
    let v := if version = "" then e.envDockerVersion else version
    if v = "" then .error .invalidArgument
    else
      match versionExists e.tags v with
      | .error c => .error c
      | .ok false => .error .invalidOperation
      | .ok true =>
        let e1 :=
          if v = "experimental" ∧ v ∈ e.versionDirs then
            { e with versionDirs := e.versionDirs.erase v }
          else e
        if v ∈ e1.versionDirs then dvmRun fuel .useC e1 v
        else dvmRun fuel .useC { e1 with versionDirs := v :: e1.versionDirs } v
  | Nat.succ fuel, .useC, e, version =>
    let v := if version = "" then e.envDockerVersion else version
    if v = "" then .error .invalidOperation
    else if v = "system" then
      match getSystemDockerVersion e with
      | none => .error .invalidOperation
      | some _ => .ok (removePreviousDvmVersionFromPath e)
    else
      let v2 :=
        match e.aliases.lookup v with
        | some target => target
        | none => v
      let ensured :=
        if isVersionInstalled e v2 then Except.ok e
        else dvmRun fuel .installC e v2
      match ensured with
      | .error c => .error c
      | .ok e1 => .ok (prependDvmVersionToPath (removePreviousDvmVersionFromPath e1) v2)

/-- The `install` command. -/
def install (fuel : Nat) (e : Env) (version : String) : Except ExitCode Env :=
  dvmRun fuel .installC e version

/-- The `use` command. -/
def use (fuel : Nat) (e : Env) (version : String) : Except ExitCode Env :=
  dvmRun fuel .useC e version

/-! ## Self upgrade -/

/-- `isUpgradeAvailable`: failures of the release query or of either semver
parse degrade to a warning and `(false, "")`. -/
def isUpgradeAvailable (e : Env) : Bool × String :=
  match e.latestReleaseTag with
  | none => (false, "")
  | some tag =>
    match parseSemver e.dvmVersion with
    | none => (false, "")
    | some cur =>
      match parseSemver tag with
      | none => (false, "")
      | some latest => (semverGt latest cur, tag)

/-- Modelled from the spec: `upgradeSelf` is not in the given sources; per
the SelfUpgrader design it performs a checksum-verified download and atomic
self-replacement of the tool binary. -/
def upgradeSelf (e : Env) (version : String) : Env :=
  { e with installedToolVersion := version }

/-- The `upgrade` command. -/
def upgrade (e : Env) (checkOnly : Bool) (version : String) : Env :=
  if version ≠ "" ∧ e.dvmVersion = version then e
  else
    let chosen :=
      if version = "" then
        match isUpgradeAvailable e with
        | (true, latest) => some latest
        | (false, _) => none
      else some version
    match chosen with
    | none => e
    | some v => if checkOnly then e else upgradeSelf e v

/-! ## Helper lemmas -/

theorem mem_insertSorted {a b : String} {l : List String} :
    a ∈ insertSorted b l ↔ a = b ∨ a ∈ l := by
  induction l with
  | nil => simp [insertSorted]
  | cons t ts ih =>
    simp only [insertSorted]
    split
    · simp
    · simp only [List.mem_cons, ih]
      tauto

theorem mem_sortStrings {a : String} {l : List String} :
    a ∈ sortStrings l ↔ a ∈ l := by
  induction l with
  | nil => simp [sortStrings]
  | cons x xs ih =>
    show a ∈ insertSorted x (sortStrings xs) ↔ _
    rw [mem_insertSorted, ih]
    simp

theorem insertSorted_ne_nil (b : String) (l : List String) : insertSorted b l ≠ [] := by
  cases l with
  | nil => simp [insertSorted]
  | cons t ts =>
    simp only [insertSorted]
    split <;> simp

theorem sortStrings_eq_nil_iff {l : List String} : sortStrings l = [] ↔ l = [] := by
  cases l with
  | nil => simp [sortStrings]
  | cons x xs =>
    show insertSorted x (sortStrings xs) = [] ↔ _
    simp [insertSorted_ne_nil]

theorem starSplit_no_star {p : List Char} (hp : ∀ c ∈ p, c ≠ '*') :
    starSplit p = [p] := by
  induction p with
  | nil => rfl
  | cons c cs ih =>
    have hc : c ≠ '*' := hp c (by simp)
    have ihr := ih fun d hd => hp d (by simp [hd])
    simp [starSplit, hc, ihr]

theorem starSplit_append_star {p : List Char} (hp : ∀ c ∈ p, c ≠ '*') :
    starSplit (p ++ ['*']) = [p, []] := by
  induction p with
  | nil => rfl
  | cons c cs ih =>
    have hc : c ≠ '*' := hp c (by simp)
    have ihr := ih fun d hd => hp d (by simp [hd])
    simp [starSplit, hc, ihr]

theorem nil_isSuffixOf (r : List Char) : List.isSuffixOf ([] : List Char) r = true := by
  simp [List.isSuffixOf, List.isPrefixOf]

theorem fpMatchL_plain {p s : List Char} (hp : ∀ c ∈ p, c ≠ '*') :
    fpMatchL p s = (p == s) := by
  simp [fpMatchL, starSplit_no_star hp]

theorem fpMatchL_append_star {p s : List Char} (hp : ∀ c ∈ p, c ≠ '*') :
    fpMatchL (p ++ ['*']) s = p.isPrefixOf s := by
  rw [fpMatchL, starSplit_append_star hp]
  by_cases h : p.isPrefixOf s
  · simp [h, splitLast, matchMiddles, nil_isSuffixOf]
  · simp [h]

theorem string_toList_injective {s t : String} (h : s.toList = t.toList) : s = t := by
  cases s
  cases t
  simp [String.toList] at h
  simp [h]

theorem plain_no_star {s : String} (h : plainPattern s = true) :
    ∀ c ∈ s.toList, c ≠ '*' := by
  intro c hc
  have hall := List.all_eq_true.mp h c hc
  have hprop := of_decide_eq_true hall
  exact hprop.1

theorem globMatch_plain {p s : String} (hp : plainPattern p = true) :
    globMatch p s = true ↔ p = s := by
  unfold globMatch
  rw [fpMatchL_plain (plain_no_star hp)]
  constructor
  · intro h
    exact string_toList_injective (beq_iff_eq.mp h)
  · rintro rfl
    simp

theorem globMatch_append_star {p s : String} (hp : plainPattern p = true) :
    globMatch (p ++ "*") s = p.toList.isPrefixOf s.toList := by
  unfold globMatch
  have hl : (p ++ "*").toList = p.toList ++ ['*'] := rfl
  rw [hl, fpMatchL_append_star (plain_no_star hp)]

theorem tokensSearch_nil_pattern (s : List Char) : tokensSearch [] s = true := by
  cases s <;> simp [tokensSearch, tokensAtFront]

theorem tokensAtFront_compiled {cs : List Char} {pm : List RTok}
    (h : goRegexCompileL cs = some pm) (r : List Char) :
    tokensAtFront pm (cs ++ r) = true := by
  induction cs generalizing pm with
  | nil =>
    simp only [goRegexCompileL, Option.some.injEq] at h
    subst h
    simp [tokensAtFront]
  | cons c cst ih =>
    simp only [goRegexCompileL] at h
    by_cases hdot : c = '.'
    · rw [if_pos hdot] at h
      obtain ⟨pm', hm, hpm⟩ := Option.map_eq_some'.mp h
      subst hpm
      subst hdot
      simpa [tokensAtFront] using ih hm
    · rw [if_neg hdot] at h
      by_cases hlit : regexLiteralChar c = true
      · rw [if_pos hlit] at h
        obtain ⟨pm', hm, hpm⟩ := Option.map_eq_some'.mp h
        subst hpm
        simpa [tokensAtFront] using ih hm
      · rw [if_neg hlit] at h
        simp at h

theorem tokensSearch_compiled_cons {cs : List Char} {pm : List RTok}
    (h : goRegexCompileL cs = some pm) (x : Char) :
    tokensSearch pm (x :: cs) = true := by
  have h1 : tokensAtFront pm (cs ++ []) = true := tokensAtFront_compiled h []
  rw [List.append_nil] at h1
  cases cs with
  | nil =>
    simp only [goRegexCompileL, Option.some.injEq] at h
    subst h
    simp [tokensSearch, tokensAtFront]
  | cons y ys =>
    simp [tokensSearch, h1]

theorem versionTagMatchL_sound {cs l : List Char} (h : versionTagMatchL cs = some l) :
    cs = 'v' :: l := by
  cases cs with
  | nil => simp [versionTagMatchL] at h
  | cons c rest =>
    simp only [versionTagMatchL] at h
    by_cases hv : c = 'v'
    · rw [if_pos hv] at h
      subst hv
      by_cases hmaj : (rest.takeWhile isDigit19).isEmpty
      · rw [if_pos hmaj] at h; simp at h
      · rw [if_neg hmaj] at h
        cases hd : rest.dropWhile isDigit19 with
        | nil => rw [hd] at h; simp at h
        | cons d r2 =>
          rw [hd] at h
          simp only [] at h
          by_cases hdp : d = '.'
          · rw [if_pos hdp] at h
            subst hdp
            by_cases hmin : (r2.takeWhile Char.isDigit).isEmpty
            · rw [if_pos hmin] at h; simp at h
            · rw [if_neg hmin] at h
              cases hd2 : r2.dropWhile Char.isDigit with
              | nil => rw [hd2] at h; simp at h
              | cons d2 r4 =>
                rw [hd2] at h
                simp only [] at h
                by_cases hdp2 : d2 = '.'
                · rw [if_pos hdp2] at h
                  subst hdp2
                  by_cases hpat : (r4.takeWhile Char.isDigit).isEmpty
                  · rw [if_pos hpat] at h; simp at h
                  · rw [if_neg hpat] at h
                    by_cases hrest : (r4.dropWhile Char.isDigit).isEmpty
                    · rw [if_pos hrest] at h
                      simp only [Option.some.injEq] at h
                      have hr4 : r4.dropWhile Char.isDigit = [] :=
                        List.isEmpty_iff.mp hrest
                      have e4 : r4.takeWhile Char.isDigit = r4 := by
                        have := List.takeWhile_append_dropWhile
                          (p := Char.isDigit) (l := r4)
                        rw [hr4, List.append_nil] at this
                        exact this
                      have e2 : r2 = r2.takeWhile Char.isDigit ++ '.' :: r4 := by
                        conv_lhs => rw [← List.takeWhile_append_dropWhile
                          (p := Char.isDigit) (l := r2)]
                        rw [hd2]
                      have e1 : rest = rest.takeWhile isDigit19 ++ '.' :: r2 := by
                        conv_lhs => rw [← List.takeWhile_append_dropWhile
                          (p := isDigit19) (l := rest)]
                        rw [hd]
                      rw [e1, e2, ← h, e4]
                      simp [List.append_assoc]
                    · rw [if_neg hrest] at h; simp at h
                · rw [if_neg hdp2] at h; simp at h
          · rw [if_neg hdp] at h; simp at h
    · rw [if_neg hv] at h; simp at h

theorem versionTagMatch_toList {t v : String} (h : versionTagMatch t = some v) :
    t.toList = 'v' :: v.toList := by
  unfold versionTagMatch at h
  obtain ⟨l, hl, hv⟩ := Option.map_eq_some'.mp h
  have := versionTagMatchL_sound hl
  rw [this, ← hv]
  rfl

theorem mem_availList {pm : List RTok} {tags : List String} {v : String} :
    v ∈ availList pm tags ↔
      ∃ t, t ∈ tags ∧ versionTagMatch t = some v ∧ tokensSearch pm t.toList = true := by
  unfold availList
  rw [mem_sortStrings, List.mem_filterMap]
  constructor
  · rintro ⟨t, ht, hf⟩
    refine ⟨t, ht, ?_⟩
    cases hm : versionTagMatch t with
    | none => rw [hm] at hf; simp at hf
    | some w =>
      rw [hm] at hf
      simp only [] at hf
      by_cases hs : tokensSearch pm t.toList = true
      · rw [if_pos hs] at hf
        simp only [Option.some.injEq] at hf
        subst hf
        exact ⟨rfl, hs⟩
      · rw [if_neg hs] at hf
        simp at hf
  · rintro ⟨t, ht, hm, hs⟩
    refine ⟨t, ht, ?_⟩
    rw [hm]
    simp only []
    rw [if_pos (show tokensSearch pm t.toList = true from hs)]

theorem mem_availList_nil_of_tag {tags : List String} {t v : String}
    (ht : t ∈ tags) (hm : versionTagMatch t = some v) :
    v ∈ availList ([] : List RTok) tags :=
  mem_availList.mpr ⟨t, ht, hm, tokensSearch_nil_pattern t.toList⟩

theorem availList_contains_invariant {tags : List String} {v : String} {pm : List RTok}
    (hc : goRegexCompile v = some pm) :
    (availList pm tags).contains v = (availList ([] : List RTok) tags).contains v := by
  have hiff : v ∈ availList pm tags ↔ v ∈ availList ([] : List RTok) tags := by
    constructor
    · intro hv
      obtain ⟨t, ht, hm, _⟩ := mem_availList.mp hv
      exact mem_availList_nil_of_tag ht hm
    · intro hv
      obtain ⟨t, ht, hm, _⟩ := mem_availList.mp hv
      refine mem_availList.mpr ⟨t, ht, hm, ?_⟩
      have htl := versionTagMatch_toList hm
      rw [htl]
      exact tokensSearch_compiled_cons hc 'v'
  rw [Bool.eq_iff_iff]
  simp only [List.elem_iff]
  exact hiff

theorem filter_self_idem {α : Type} (f : α → Bool) (l : List α) :
    (l.filter f).filter f = l.filter f := by
  induction l with
  | nil => rfl
  | cons x xs ih =>
    by_cases h : f x = true
    · simp [List.filter_cons, h, ih]
    · simp [List.filter_cons, h, ih]

theorem append_star_ne_empty (p : String) : p ++ "*" ≠ "" := by
  intro h
  have h1 : (p ++ "*").toList = ([] : List Char) := by rw [h]; rfl
  have h2 : (p ++ "*").toList = p.toList ++ ['*'] := rfl
  rw [h2] at h1
  exact absurd (List.append_eq_nil.mp h1).2 (by simp)

theorem mem_getInstalledVersions_of_dir {e : Env} {pattern v : String}
    (hpat : pattern ≠ "") (hv : v ∈ e.versionDirs) (hne : v ≠ "experimental")
    (hmatch : globMatch pattern v = true) :
    v ∈ getInstalledVersions e pattern := by
  simp only [getInstalledVersions, mem_sortStrings]
  have hnames : v ∈ getInstalledNames e pattern := by
    simp only [getInstalledNames, if_neg hpat]
    exact List.mem_filter.mpr ⟨hv, hmatch⟩
  have hfm : v ∈ (getInstalledNames e pattern).filterMap fun n =>
      if n = "experimental" then
        (getExperimentalDockerVersion e).map fun ev => "experimental (" ++ ev ++ ")"
      else some n := by
    refine List.mem_filterMap.mpr ⟨v, hnames, ?_⟩
    rw [if_neg hne]
  split
  · split
    · exact List.mem_append_left _ hfm
    · exact hfm
  · exact hfm

theorem dir_of_installed_plain {e : Env} {v : String} (hp : plainPattern v = true)
    (h0 : v ≠ "") (hs : v ≠ "system")
    (hi : isVersionInstalled e v = true) : v ∈ e.versionDirs := by
  unfold isVersionInstalled at hi
  have hne : getInstalledVersions e v ≠ [] := by
    intro hnil
    rw [hnil] at hi
    simp at hi
  obtain ⟨x, hx⟩ := List.exists_mem_of_ne_nil _ hne
  simp only [getInstalledVersions, mem_sortStrings] at hx
  have hsys : ¬(globMatch v "system" = true) := by
    intro hgm
    exact hs ((globMatch_plain hp).mp hgm)
  rw [if_neg hsys] at hx
  obtain ⟨n, hn, hfn⟩ := List.mem_filterMap.mp hx
  simp only [getInstalledNames, if_neg h0] at hn
  obtain ⟨hnd, hgm⟩ := List.mem_filter.mp hn
  rw [(globMatch_plain hp).mp hgm]
  exact hnd

/-! ## Concrete environments for witnesses and counterexamples -/

/-- A baseline environment: empty store, no resolvable binaries. -/
def baseEnv : Env := {
  dvmDir := "/dvm"
  pathEnv := ["/usr/bin"]
  versionDirs := []
  hasBinDockerDir := true
  experimentalBinaryExists := false
  aliases := []
  dockerLookPath := none
  systemLookPath := none
  rawVersionOutput := fun _ => ""
  envDockerVersion := ""
  tags := []
  dvmVersion := "1.0.0"
  latestReleaseTag := none
  installedToolVersion := "1.0.0" }

/-- An environment whose active docker binary is the experimental install. -/
def activeExperimentalEnv : Env :=
  { baseEnv with
    versionDirs := ["experimental"]
    experimentalBinaryExists := true
    dockerLookPath := some "/dvm/bin/docker/experimental/docker"
    rawVersionOutput := fun _ => "Docker version 1.13.0-dev, build 123" }

/-- An environment whose active docker binary is the pinned 1.10.0 install. -/
def pinnedActiveEnv : Env :=
  { baseEnv with
    versionDirs := ["1.10.0"]
    dockerLookPath := some "/dvm/bin/docker/1.10.0/docker"
    rawVersionOutput := fun _ => "Docker version 1.10.0, build abc" }

/-- An environment with exactly the version 1.10.0 installed. -/
def oneTenEnv : Env := { baseEnv with versionDirs := ["1.10.0"] }

/-- An environment where docker resolves but reports unparseable output. -/
def unparseableEnv : Env :=
  { baseEnv with
    dockerLookPath := some "/usr/local/bin/docker"
    rawVersionOutput := fun _ => "flux capacitor" }

/-- An environment with an experimental directory whose binary is missing,
so that probing its version fails. -/
def unprobedExperimentalEnv : Env :=
  { baseEnv with versionDirs := ["experimental"] }

/-- An environment with the versions 1.10.0 and 1.1.0 installed. -/
def twoVersionsEnv : Env := { baseEnv with versionDirs := ["1.10.0", "1.1.0"] }

/-- An environment whose PATH holds one managed and one unmanaged entry. -/
def pathsEnv : Env :=
  { baseEnv with pathEnv := ["/dvm/bin/docker/1.10.0", "/usr/bin"] }

/-! ## Claims -/

/-- C1 counterexample: in `activeExperimentalEnv` the experimental install is
the active docker binary and the current-version lookup reports it as
`experimental (1.13.0-dev)`, yet `uninstall "experimental"` does not fail
with `InvalidOperation`: it succeeds and deletes the version directory. -/
theorem uninstall_active_experimental_cex :
    getCurrentDockerVersion activeExperimentalEnv = some "experimental (1.13.0-dev)"
    ∧ "experimental" ∈ activeExperimentalEnv.versionDirs
    ∧ Except.map Env.versionDirs (uninstall activeExperimentalEnv "experimental")
        = Except.ok [] :=
  ⟨rfl, by decide, rfl⟩

/-- C1 (amended): `uninstall` fails with `InvalidOperation` exactly when the
argument equals the string reported by the current-version lookup; since an
active experimental install is reported as `experimental (<probed>)`, the
guard protects plain pinned versions but not `"experimental"` itself. -/
theorem uninstall_blocks_reported_current :
    ∀ (e : Env) (v : String), v ≠ "" → (getCurrentDockerVersion e).getD "" = v →
      uninstall e v = .error .invalidOperation := by
  intro e v h1 h2
  unfold uninstall
  rw [if_neg h1]
  simp only []
  rw [if_pos h2]

/-- Witness for C1: with version 1.10.0 active, uninstalling it is refused. -/
theorem uninstall_blocks_reported_current_witness :
    uninstall pinnedActiveEnv "1.10.0" = .error .invalidOperation :=
  uninstall_blocks_reported_current pinnedActiveEnv "1.10.0" (by decide) (by rfl)

/-- C2 counterexample: the tag `v10.0.0` has the shape `vMAJOR.MINOR.PATCH`
with `MAJOR = 10 ≥ 1`, but the filter `^v([1-9]+\.\d+\.\d+)$` rejects it
(its MAJOR contains the digit 0), so only `1.10.0` is reported. -/
theorem available_versions_major_ten_cex :
    getAvailableVersions ["v1.10.0", "v0.9.0", "v10.0.0"] "" = .ok ["1.10.0"]
    ∧ versionTagMatch "v10.0.0" = none :=
  ⟨rfl, by decide⟩

/-- C2 (amended): a version belongs to the filtered catalog exactly when some
fetched tag passes the strict shape filter with that capture and its raw text
matches the pattern; the strict shape accepts `v1.10.0` (as `1.10.0`) and
rejects both `v0.9.0` and `v10.0.0`, because MAJOR must be a nonempty string
of digits 1–9 and may not contain the digit 0. -/
theorem available_versions_shape :
    (∀ (pm : List RTok) (tags : List String) (v : String),
        v ∈ availList pm tags ↔
          ∃ t, t ∈ tags ∧ versionTagMatch t = some v ∧ tokensSearch pm t.toList = true)
    ∧ versionTagMatch "v1.10.0" = some "1.10.0"
    ∧ versionTagMatch "v0.9.0" = none
    ∧ versionTagMatch "v10.0.0" = none :=
  ⟨fun _ _ _ => mem_availList, by decide, by decide, by decide⟩

/-- C3 counterexample: with both the version token and `DOCKER_VERSION`
empty, `use` dies with `retCodeInvalidOperation` (3), not with the
`InvalidArgument` code (127) the claim requires. -/
theorem use_empty_exit_code_cex :
    use 1 baseEnv "" = .error .invalidOperation
    ∧ ExitCode.invalidOperation ≠ ExitCode.invalidArgument
    ∧ baseEnv.envDockerVersion = "" :=
  ⟨rfl, by decide, rfl⟩

/-- C3 (amended): both commands substitute the `DOCKER_VERSION` fallback for
an empty token; if the token is still empty, `install` fails with
`InvalidArgument` while `use` fails with `InvalidOperation`. -/
theorem empty_version_fallback :
    ∀ (fuel : Nat) (e : Env),
      install (fuel + 1) e "" = install (fuel + 1) e e.envDockerVersion
      ∧ use (fuel + 1) e "" = use (fuel + 1) e e.envDockerVersion
      ∧ (e.envDockerVersion = "" →
          install (fuel + 1) e "" = .error .invalidArgument
          ∧ use (fuel + 1) e "" = .error .invalidOperation) := by
  intro fuel e
  refine ⟨?_, ?_, fun h => ⟨?_, ?_⟩⟩
  · show dvmRun (fuel + 1) .installC e "" = dvmRun (fuel + 1) .installC e e.envDockerVersion
    simp only [dvmRun]
    by_cases h : e.envDockerVersion = "" <;> simp [h]
  · show dvmRun (fuel + 1) .useC e "" = dvmRun (fuel + 1) .useC e e.envDockerVersion
    simp only [dvmRun]
    by_cases h : e.envDockerVersion = "" <;> simp [h]
  · show dvmRun (fuel + 1) .installC e "" = .error .invalidArgument
    simp [dvmRun, h]
  · show dvmRun (fuel + 1) .useC e "" = .error .invalidOperation
    simp [dvmRun, h]

/-- Witness for C3: the two exit codes at fuel 1 in the empty environment. -/
theorem empty_version_fallback_witness :
    install 1 baseEnv "" = .error .invalidArgument
    ∧ use 1 baseEnv "" = .error .invalidOperation :=
  (empty_version_fallback 0 baseEnv).2.2 rfl

/-- C4 counterexample: with only 1.10.0 installed, `alias latest 1.*`
succeeds and persists the record `("latest", "1.*")`, because the
installed-version guard treats `1.*` as a glob pattern; yet `1.*` is not an
installed version. -/
theorem alias_glob_version_cex :
    Except.map Env.aliases (aliasCmd oneTenEnv "latest" "1.*") = .ok [("latest", "1.*")]
    ∧ "1.*" ∉ oneTenEnv.versionDirs :=
  ⟨rfl, by decide⟩

/-- C4 (amended): `alias` fails with `InvalidArgument` whenever
`isVersionInstalled` rejects the version — that is, whenever no installed
entry glob-matches it — and every successful run had `isVersionInstalled`
accept the version; since the guard is a glob test, a persisted record need
not name an installed version exactly. -/
theorem alias_requires_version_glob_installed :
    ∀ (e : Env) (a v : String),
      (isVersionInstalled e v = false → aliasCmd e a v = .error .invalidArgument)
      ∧ (∀ e', aliasCmd e a v = .ok e' → isVersionInstalled e v = true) := by
  intro e a v
  constructor
  · intro h
    unfold aliasCmd
    by_cases h1 : a = "" ∨ v = ""
    · rw [if_pos h1]
    · rw [if_neg h1, if_pos (by simp [h])]
  · intro e' h
    unfold aliasCmd at h
    by_cases h1 : a = "" ∨ v = ""
    · rw [if_pos h1] at h
      exact absurd h (by simp)
    · rw [if_neg h1] at h
      by_cases h2 : isVersionInstalled e v = true
      · exact h2
      · rw [if_pos (by simp [h2])] at h
        exact absurd h (by simp)

/-- Witness for C4: aliasing an uninstalled version is refused. -/
theorem alias_requires_version_glob_installed_witness :
    aliasCmd baseEnv "myalias" "1.9.0" = .error .invalidArgument :=
  (alias_requires_version_glob_installed baseEnv "myalias" "1.9.0").1 (by rfl)

/-- C5 counterexample: `"("` is absent from the catalog, but `versionExists`
does not return false for it — it dies with `InvalidOperation`, because the
version is compiled as a regular expression and `(` is invalid. -/
theorem version_exists_invalid_regex_cex :
    versionExists ["v1.10.0"] "(" = .error .invalidOperation
    ∧ "(" ∉ availList ([] : List RTok) ["v1.10.0"] :=
  ⟨rfl, by decide⟩

/-- C5 (amended): for every version that compiles as a regular expression,
`versionExists` returns exactly the claimed membership test — true iff the
version is `"experimental"` or belongs to the unfiltered catalog; versions
that are invalid regular expressions die with `InvalidOperation` instead. -/
theorem version_exists_iff_catalog :
    ∀ (tags : List String) (v : String) (pm : List RTok),
      goRegexCompile v = some pm →
      versionExists tags v
        = .ok ((v == "experimental") || (availList ([] : List RTok) tags).contains v) := by
  intro tags v pm hc
  by_cases hv : v = "experimental"
  · subst hv
    simp [versionExists]
  · unfold versionExists getAvailableVersions
    rw [if_neg hv, hc]
    simp only []
    rw [availList_contains_invariant hc]
    have hbe : (v == "experimental") = false := by
      simp [hv]
    rw [hbe, Bool.false_or]

/-- Witness for C5: `1.10.0` compiles as a regex and is found in the catalog
`["v1.10.0"]`. -/
theorem version_exists_iff_catalog_witness :
    versionExists ["v1.10.0"] "1.10.0"
      = .ok (("1.10.0" == "experimental")
          || (availList ([] : List RTok) ["v1.10.0"]).contains "1.10.0") :=
  version_exists_iff_catalog ["v1.10.0"] "1.10.0"
    [RTok.lit '1', RTok.dot, RTok.lit '1', RTok.lit '0', RTok.dot, RTok.lit '0'] (by rfl)

/-- C6 counterexample: docker resolves to a binary whose `-v` output cannot
be parsed; the parse error is discarded and `current` prints the empty
string as an info line instead of warning `N/A`. -/
theorem current_unparseable_not_na_cex :
    unparseableEnv.dockerLookPath = some "/usr/local/bin/docker"
    ∧ getDockerVersion unparseableEnv "/usr/local/bin/docker" = none
    ∧ current unparseableEnv = .info ""
    ∧ current unparseableEnv ≠ .warning "N/A" :=
  ⟨rfl, rfl, rfl, by decide⟩

/-- C6 (amended): `current` warns `N/A` exactly when no docker binary is
resolvable on the PATH; when a binary resolves but its version string cannot
be parsed, the failure is swallowed and the (possibly empty) version text is
reported as an ordinary info line. -/
theorem current_na_iff_no_binary :
    ∀ e : Env, current e = .warning "N/A" ↔ e.dockerLookPath = none := by
  intro e
  unfold current getCurrentDockerVersion
  cases h : e.dockerLookPath with
  | none => simp
  | some p => simp

/-- C7 counterexample: with only 1.10.0 installed, `isVersionInstalled "*"`
reports true although no directory named `*` exists — the version argument
is used as a glob pattern. -/
theorem installed_glob_pattern_cex :
    isVersionInstalled oneTenEnv "*" = true
    ∧ "*" ∉ oneTenEnv.versionDirs :=
  ⟨rfl, by decide⟩

/-- C7 (amended): for a nonempty version string free of glob metacharacters
and distinct from the reserved tokens `experimental` and `system`,
`isVersionInstalled` is equivalent to the existence of the version's
directory; the equivalence fails for glob patterns, for `system` (matched
without any directory when a system binary resolves), and for an
`experimental` directory whose binary cannot be probed. -/
theorem installed_iff_dir_plain :
    ∀ (e : Env) (v : String), plainPattern v = true → v ≠ "" →
      v ≠ "experimental" → v ≠ "system" →
      (isVersionInstalled e v = true ↔ v ∈ e.versionDirs) := by
  intro e v hp h0 he hs
  constructor
  · exact dir_of_installed_plain hp h0 hs
  · intro hv
    unfold isVersionInstalled
    have hmem : v ∈ getInstalledVersions e v :=
      mem_getInstalledVersions_of_dir h0 hv he ((globMatch_plain hp).mpr rfl)
    cases hgi : getInstalledVersions e v with
    | nil => rw [hgi] at hmem; simp at hmem
    | cons x xs => simp [hgi]

/-- Witness for C7: 1.10.0 is plain, and its installedness coincides with
its directory's existence in `oneTenEnv`. -/
theorem installed_iff_dir_plain_witness :
    isVersionInstalled oneTenEnv "1.10.0" = true :=
  (installed_iff_dir_plain oneTenEnv "1.10.0" (by decide) (by decide) (by decide)
    (by decide)).mpr (by decide)

/-- C8: stripping the managed PATH entries is idempotent, the surviving
entries form a subsequence of the original PATH (their relative order is
preserved), and every non-managed entry survives. -/
theorem remove_previous_idempotent :
    ∀ e : Env,
      removePreviousDvmVersionFromPath (removePreviousDvmVersionFromPath e)
        = removePreviousDvmVersionFromPath e
      ∧ List.Sublist (removePreviousDvmVersionFromPath e).pathEnv e.pathEnv
      ∧ ∀ p, p ∈ e.pathEnv → isDvmVersionPathEntry e.dvmDir p = false →
          p ∈ (removePreviousDvmVersionFromPath e).pathEnv := by
  intro e
  refine ⟨?_, ?_, ?_⟩
  · exact congrArg (fun l => ({ e with pathEnv := l } : Env))
      (filter_self_idem (fun p => !isDvmVersionPathEntry e.dvmDir p) e.pathEnv)
  · exact List.filter_sublist e.pathEnv
  · intro p hp hf
    exact List.mem_filter.mpr ⟨hp, by simp [hf]⟩

/-- Witness for C8: in `pathsEnv` the unmanaged entry `/usr/bin` survives
the strip and stripping twice changes nothing. -/
theorem remove_previous_idempotent_witness :
    removePreviousDvmVersionFromPath (removePreviousDvmVersionFromPath pathsEnv)
      = removePreviousDvmVersionFromPath pathsEnv
    ∧ "/usr/bin" ∈ (removePreviousDvmVersionFromPath pathsEnv).pathEnv :=
  ⟨(remove_previous_idempotent pathsEnv).1,
   (remove_previous_idempotent pathsEnv).2.2 "/usr/bin" (by decide) (by decide)⟩

/-- C9: `upgrade` with `checkOnly = true` returns the state unchanged for
every explicit version argument, whether or not a newer release exists. -/
theorem upgrade_check_only_pure :
    ∀ (e : Env) (v : String), upgrade e true v = e := by
  intro e v
  unfold upgrade
  split
  · rfl
  · simp only []
    split <;> simp

/-- C10 counterexample: the directory `experimental` is installed and its
name begins with the pattern `exp`, yet `list "exp"` omits it, because the
experimental version probe fails and the entry is skipped. -/
theorem list_experimental_skipped_cex :
    "experimental" ∈ unprobedExperimentalEnv.versionDirs
    ∧ "exp".toList.isPrefixOf "experimental".toList = true
    ∧ list unprobedExperimentalEnv "exp" = [] :=
  ⟨by decide, by decide, rfl⟩

/-- C10 (amended): `list` appends `*` to its pattern, so for a pattern free
of glob metacharacters every installed directory other than `experimental`
whose name begins with the pattern appears in the listing; an installed
`experimental` is relabelled with its probed version and omitted entirely
when the probe fails. -/
theorem list_prefix_mem :
    ∀ (e : Env) (pattern v : String), plainPattern pattern = true →
      v ∈ e.versionDirs → v ≠ "experimental" →
      pattern.toList.isPrefixOf v.toList = true →
      v ∈ list e pattern := by
  intro e pattern v hp hv hne hpre
  unfold list
  refine mem_getInstalledVersions_of_dir (append_star_ne_empty pattern) hv hne ?_
  rw [globMatch_append_star hp]
  exact hpre

/-- Witness for C10: `list "1.1"` reports 1.10.0, not only 1.1.0. -/
theorem list_prefix_mem_witness :
    "1.10.0" ∈ list twoVersionsEnv "1.1" :=
  list_prefix_mem twoVersionsEnv "1.1" "1.10.0" (by decide) (by decide) (by decide)
    (by decide)

end Dvm
